import Mathlib

/-!
Verification development for the Time-Manager scheduling and balance engine.

The definitions below are a shallow embedding of the application's state
module (`state.ts`) and of the calendar helpers it uses (`types.ts`):

* JavaScript numbers that hold hour amounts are embedded as rationals (`ℚ`),
  slot indices as integers (`Int`).
* `crypto.randomUUID()` is embedded as a fresh-identity counter `nextId`
  threaded through the state; each call returns the counter and increments it.
* The persistence calls (`saveProjects`, `saveWeek`, ...) and the subscriber
  notification (`notify`) have no effect on the in-memory state and are
  dropped.
* `Array.prototype.sort` (a stable sort) is embedded as a stable insertion
  sort `jsSort`.
-/

namespace TimeManager

/-- The five weekday enumerators of `DayOfWeek` in `types.ts`. -/
inductive DayOfWeek
  | Monday | Tuesday | Wednesday | Thursday | Friday
deriving DecidableEq

/-- Project priority (`types.ts`). -/
inductive Priority
  | High | Medium | Low
deriving DecidableEq

/-- Weekly standing classification produced by `calculateProjectBalances`. -/
inductive WeeklyStanding
  | over | under | onTrack
deriving DecidableEq

/-- `SLOT_MINUTES` from `types.ts`: each slot is 30 minutes. -/
def SLOT_MINUTES : ℚ := 30

/-- `PROJECT_PALETTE.length` from `types.ts`: 12 colors. -/
def PALETTE_SIZE : Nat := 12

/-- `Project` record (`types.ts`). Identities are embedded as naturals. -/
structure Project where
  id : Nat
  name : String
  weeklyHourTarget : ℚ
  priority : Priority
  colorIndex : Nat
deriving DecidableEq

/-- `TimeBlock` record (`types.ts`). -/
structure TimeBlock where
  id : Nat
  projectId : Nat
  day : DayOfWeek
  slotIndex : Int
deriving DecidableEq

/-- A template entry: a `TimeBlock` without its identity (`Omit<TimeBlock, "id">`). -/
structure TemplateBlock where
  projectId : Nat
  day : DayOfWeek
  slotIndex : Int
deriving DecidableEq

/-- `WeekData` record (`types.ts`). -/
structure WeekData where
  weekKey : String
  startDate : String
  blocks : List TimeBlock
deriving DecidableEq

/-- `Template` record (`types.ts`). -/
structure Template where
  id : Nat
  name : String
  blocks : List TemplateBlock
deriving DecidableEq

/-- `AppData` root aggregate (`types.ts`). -/
structure AppData where
  projects : List Project
  weeks : List WeekData
  templates : List Template
  weeklyHourGoal : ℚ
deriving DecidableEq

/-- The module-level mutable state of `state.ts`: the `AppData` aggregate, the
current Monday (represented by its week key and start-date string, which is
all the state operations consult), and the fresh-identity counter standing in
for `crypto.randomUUID()`. -/
structure AppState where
  appData : AppData
  currentKey : String
  currentStart : String
  nextId : Nat
deriving DecidableEq

/-- `generateId` (`types.ts`): mint a fresh identity. -/
def generateId (s : AppState) : Nat × AppState :=
  (s.nextId, { s with nextId := s.nextId + 1 })

/-- `getCurrentWeekData` (`state.ts`): the week whose key is the current week
key, or a fresh empty week record if none is stored. -/
def getCurrentWeekData (s : AppState) : WeekData :=
  match s.appData.weeks.find? (fun w => decide (w.weekKey = s.currentKey)) with
  | some w => w
  | none => { weekKey := s.currentKey, startDate := s.currentStart, blocks := [] }

/-- The week-list effect of `updateWeekInState` (`state.ts`): replace the first
week with the same key (`findIndex` + assignment), or append (`push`) if
absent. -/
def upsertWeek (week : WeekData) : List WeekData → List WeekData
  | [] => [week]
  | w :: ws =>
    if w.weekKey = week.weekKey then week :: ws else w :: upsertWeek week ws

/-- `updateWeekInState` (`state.ts`). -/
def updateWeekInState (week : WeekData) (s : AppState) : AppState :=
  { s with appData := { s.appData with weeks := upsertWeek week s.appData.weeks } }

/-- `addTimeBlock` (`state.ts`): single-slot insert, returning `none` and
leaving the state untouched when the slot is occupied. -/
def addTimeBlock (projectId : Nat) (day : DayOfWeek) (slotIndex : Int)
    (s : AppState) : Option TimeBlock × AppState :=
  let week := getCurrentWeekData s
  match week.blocks.find? (fun b => decide (b.day = day ∧ b.slotIndex = slotIndex)) with
  | some _ => (none, s)
  | none =>
    let idAndState := generateId s
    let block : TimeBlock :=
      { id := idAndState.1, projectId := projectId, day := day, slotIndex := slotIndex }
    (some block,
      updateWeekInState { week with blocks := week.blocks ++ [block] } idAndState.2)

/-- The `for (let slot = minSlot; slot <= maxSlot; slot++)` loop body of
`addTimeBlocks` (`state.ts`): for each slot, drop any block occupying it and
push a fresh block. Returns the week's blocks, the accumulated `newBlocks`,
and the advanced identity counter. -/
def addBlocksLoop (projectId : Nat) (day : DayOfWeek) :
    List Int → List TimeBlock → List TimeBlock → Nat →
    List TimeBlock × List TimeBlock × Nat
  | [], blocks, newBlocks, nextId => (blocks, newBlocks, nextId)
  | slot :: rest, blocks, newBlocks, nextId =>
    let blocks := blocks.filter (fun b => !decide (b.day = day ∧ b.slotIndex = slot))
    let block : TimeBlock :=
      { id := nextId, projectId := projectId, day := day, slotIndex := slot }
    addBlocksLoop projectId day rest (blocks ++ [block]) (newBlocks ++ [block]) (nextId + 1)

/-- The ascending list of slots `minSlot, minSlot+1, ..., maxSlot` visited by
the loop in `addTimeBlocks`. -/
def slotRange (minSlot maxSlot : Int) : List Int :=
  (List.range (maxSlot + 1 - minSlot).toNat).map (fun (i : Nat) => minSlot + (i : Int))

/-- `addTimeBlocks` (`state.ts`): range insert with overwrite of occupied
slots; bounds are normalized with `Math.min`/`Math.max`. -/
def addTimeBlocks (projectId : Nat) (day : DayOfWeek) (startSlot endSlot : Int)
    (s : AppState) : List TimeBlock × AppState :=
  let week := getCurrentWeekData s
  let minSlot := min startSlot endSlot
  let maxSlot := max startSlot endSlot
  let res := addBlocksLoop projectId day (slotRange minSlot maxSlot) week.blocks [] s.nextId
  let s := { s with nextId := res.2.2 }
  if res.2.1.length > 0 then
    (res.2.1, updateWeekInState { week with blocks := res.1 } s)
  else (res.2.1, s)

/-- `removeTimeBlocksInRange` (`state.ts`). -/
def removeTimeBlocksInRange (day : DayOfWeek) (startSlot endSlot : Int)
    (s : AppState) : AppState :=
  let week := getCurrentWeekData s
  let minSlot := min startSlot endSlot
  let maxSlot := max startSlot endSlot
  let newBlocks := week.blocks.filter
    (fun b => !decide (b.day = day ∧ minSlot ≤ b.slotIndex ∧ b.slotIndex ≤ maxSlot))
  if newBlocks.length ≠ week.blocks.length then
    updateWeekInState { week with blocks := newBlocks } s
  else s

/-- `removeTimeBlock` (`state.ts`). -/
def removeTimeBlock (blockId : Nat) (s : AppState) : AppState :=
  let week := getCurrentWeekData s
  updateWeekInState
    { week with blocks := week.blocks.filter (fun b => !decide (b.id = blockId)) } s

/-- In-place mutation of the first list element satisfying `p` — the effect of
`find` followed by a field assignment on the found object. -/
def replaceFirst {α : Type} (p : α → Bool) (f : α → α) : List α → List α
  | [] => []
  | a :: as => if p a then f a :: as else a :: replaceFirst p f as

/-- `updateTimeBlockProject` (`state.ts`): reassign the found block's project;
silent no-op when the block id is absent from the current week. -/
def updateTimeBlockProject (blockId newProjectId : Nat) (s : AppState) : AppState :=
  let week := getCurrentWeekData s
  match week.blocks.find? (fun b => decide (b.id = blockId)) with
  | none => s
  | some _ =>
    updateWeekInState
      { week with
        blocks := replaceFirst (fun b => decide (b.id = blockId))
          (fun b => { b with projectId := newProjectId }) week.blocks } s

/-- `deleteProject` (`state.ts`): remove the project and, in every week, every
block referencing it. -/
def deleteProject (id : Nat) (s : AppState) : AppState :=
  { s with appData :=
    { s.appData with
      projects := s.appData.projects.filter (fun p => !decide (p.id = id)),
      weeks := s.appData.weeks.map
        (fun w => { w with blocks := w.blocks.filter (fun b => !decide (b.projectId = id)) }) } }

/-- The `while (usedIndices.has(colorIndex) && colorIndex < PROJECT_PALETTE.length)`
loop of `addProject`, made structural with a fuel argument; started at
`colorIndex = 0` with fuel `PALETTE_SIZE + 1` it runs exactly as the source
loop, which advances at most `PALETTE_SIZE` times. -/
def colorScan (used : List Nat) : Nat → Nat → Nat
  | 0, c => c
  | fuel + 1, c =>
    if used.contains c && decide (c < PALETTE_SIZE) then colorScan used fuel (c + 1) else c

/-- `addProject` (`state.ts`). -/
def addProject (name : String) (weeklyHourTarget : ℚ) (priority : Priority)
    (s : AppState) : Project × AppState :=
  let usedIndices := s.appData.projects.map (fun p => p.colorIndex)
  let c := colorScan usedIndices (PALETTE_SIZE + 1) 0
  let colorIndex :=
    if PALETTE_SIZE ≤ c then s.appData.projects.length % PALETTE_SIZE else c
  let idAndState := generateId s
  let project : Project :=
    { id := idAndState.1, name := name, weeklyHourTarget := weeklyHourTarget,
      priority := priority, colorIndex := colorIndex }
  (project,
    { idAndState.2 with appData :=
      { idAndState.2.appData with projects := s.appData.projects ++ [project] } })

/-- The `Partial<Omit<Project, "id">>` update record accepted by
`updateProject`. -/
structure ProjectUpdates where
  name : Option String
  weeklyHourTarget : Option ℚ
  priority : Option Priority
  colorIndex : Option Nat
deriving DecidableEq

/-- `Object.assign(project, updates)` for the fields of `ProjectUpdates`. -/
def applyUpdates (u : ProjectUpdates) (p : Project) : Project :=
  { p with
    name := u.name.getD p.name,
    weeklyHourTarget := u.weeklyHourTarget.getD p.weeklyHourTarget,
    priority := u.priority.getD p.priority,
    colorIndex := u.colorIndex.getD p.colorIndex }

/-- `updateProject` (`state.ts`): merge fields into the found project; silent
no-op when the id is unknown. -/
def updateProject (id : Nat) (u : ProjectUpdates) (s : AppState) : AppState :=
  match s.appData.projects.find? (fun p => decide (p.id = id)) with
  | none => s
  | some _ =>
    let projects :=
      replaceFirst (fun p => decide (p.id = id)) (applyUpdates u) s.appData.projects
    { s with appData := { s.appData with projects := projects } }

/-- `saveCurrentWeekAsTemplate` (`state.ts`): snapshot the current week's
blocks without identities into a fresh template. -/
def saveCurrentWeekAsTemplate (name : String) (s : AppState) : Template × AppState :=
  let week := getCurrentWeekData s
  let idAndState := generateId s
  let template : Template :=
    { id := idAndState.1, name := name,
      blocks := week.blocks.map
        (fun b => { projectId := b.projectId, day := b.day, slotIndex := b.slotIndex }) }
  (template,
    { idAndState.2 with appData :=
      { idAndState.2.appData with templates := s.appData.templates ++ [template] } })

/-- The `for (const tb of template.blocks)` loop of `applyTemplate`: build
fresh-identity blocks from the template entries whose referenced project still
exists, threading the identity counter. -/
def buildTemplateBlocks (projects : List Project) :
    List TemplateBlock → Nat → List TimeBlock × Nat
  | [], nextId => ([], nextId)
  | tb :: rest, nextId =>
    if projects.any (fun p => decide (p.id = tb.projectId)) then
      let block : TimeBlock :=
        { id := nextId, projectId := tb.projectId, day := tb.day, slotIndex := tb.slotIndex }
      let res := buildTemplateBlocks projects rest (nextId + 1)
      (block :: res.1, res.2)
    else buildTemplateBlocks projects rest nextId

/-- `applyTemplate` (`state.ts`): no-op when the template id is unknown;
otherwise replace the current week's blocks entirely with fresh-identity
blocks built from the template entries whose project still exists. -/
def applyTemplate (templateId : Nat) (s : AppState) : AppState :=
  match s.appData.templates.find? (fun t => decide (t.id = templateId)) with
  | none => s
  | some template =>
    let week := getCurrentWeekData s
    let res := buildTemplateBlocks s.appData.projects template.blocks s.nextId
    updateWeekInState { week with blocks := res.1 } { s with nextId := res.2 }

/-- `deleteTemplate` (`state.ts`). -/
def deleteTemplate (templateId : Nat) (s : AppState) : AppState :=
  { s with appData :=
    { s.appData with
      templates := s.appData.templates.filter (fun t => !decide (t.id = templateId)) } }

/-- `setWeeklyHourGoal` (`state.ts`). -/
def setWeeklyHourGoal (hours : ℚ) (s : AppState) : AppState :=
  { s with appData := { s.appData with weeklyHourGoal := hours } }

/-- Week navigation (`navigateWeek` / `goToToday` followed by
`ensureCurrentWeek` in `state.ts`): the current-Monday pointer moves — here to
an arbitrary key, abstracting the date arithmetic — and an empty week record
is created for the new key if absent. -/
def gotoWeek (key start : String) (s : AppState) : AppState :=
  let s := { s with currentKey := key, currentStart := start }
  if s.appData.weeks.any (fun w => decide (w.weekKey = key)) then s
  else
    { s with appData :=
      { s.appData with weeks :=
        s.appData.weeks ++ [{ weekKey := key, startDate := start, blocks := [] }] } }

/-- Stable insertion of `a` into `l`: `a` goes after every element `b` with
`le b a`, so equal elements keep their original relative order. -/
def insertStable {α : Type} (le : α → α → Bool) (a : α) : List α → List α
  | [] => [a]
  | b :: bs => if le b a then b :: insertStable le a bs else a :: b :: bs

/-- `Array.prototype.sort` with a comparator inducing the total preorder `le`:
a stable sort (insertion sort, inserting elements left to right). -/
def jsSort {α : Type} (le : α → α → Bool) (l : List α) : List α :=
  l.foldl (fun acc x => insertStable le x acc) []

/-- `blocks.filter(b => b.projectId === pid).length * (SLOT_MINUTES / 60)`:
hours logged for one project in one block collection. -/
def hoursLogged (blocks : List TimeBlock) (pid : Nat) : ℚ :=
  ((blocks.filter (fun b => decide (b.projectId = pid))).length : ℚ) * (SLOT_MINUTES / 60)

/-- JavaScript's `Math.round`: round half toward positive infinity. -/
def jsRound (q : ℚ) : ℤ := ⌊q + 1 / 2⌋

/-- `priorityOrder` lookup table in `calculateProjectBalances`. -/
def priorityOrder : Priority → Nat
  | Priority.High => 0
  | Priority.Medium => 1
  | Priority.Low => 2

/-- `ProjectBalance` result record (`types.ts` shape plus the `standing` field
actually returned by `calculateProjectBalances` in `state.ts`). -/
structure ProjectBalance where
  project : Project
  weeklyTarget : ℚ
  currentWeekLogged : ℚ
  carryoverBalance : ℚ
  effectiveAvailable : ℚ
  percentComplete : ℤ
  standing : WeeklyStanding
deriving DecidableEq

/-- The per-project body of `calculateProjectBalances` (`state.ts`), given the
chronologically sorted week list and the current week. -/
def projectBalance (currentKey : String) (sortedWeeks : List WeekData)
    (currentWeek : WeekData) (project : Project) : ProjectBalance :=
  let priorWeeks := sortedWeeks.takeWhile (fun w => decide (w.weekKey < currentKey))
  let carryover :=
    (priorWeeks.filter (fun w => !w.blocks.isEmpty)).foldl
      (fun acc w => acc + (project.weeklyHourTarget - hoursLogged w.blocks project.id)) 0
  let currentHours := hoursLogged currentWeek.blocks project.id
  let effectiveAvailable := project.weeklyHourTarget + carryover
  let percentComplete : ℤ :=
    if 0 < effectiveAvailable then jsRound (currentHours / effectiveAvailable * 100)
    else if 0 < currentHours then 100
    else 0
  let tolerance := max (1 / 2 : ℚ) (project.weeklyHourTarget * (1 / 10))
  let standing :=
    if project.weeklyHourTarget = 0 then WeeklyStanding.onTrack
    else if project.weeklyHourTarget + tolerance < currentHours then WeeklyStanding.over
    else if currentHours < project.weeklyHourTarget - tolerance then WeeklyStanding.under
    else WeeklyStanding.onTrack
  { project := project,
    weeklyTarget := project.weeklyHourTarget,
    currentWeekLogged := currentHours,
    carryoverBalance := carryover,
    effectiveAvailable := effectiveAvailable,
    percentComplete := min percentComplete 100,
    standing := standing }

/-- `calculateProjectBalances` (`state.ts`): sort the weeks chronologically by
week key, accumulate each project's carryover over the strictly-prior
non-empty weeks (the loop breaks at the first key at or past the current one,
so it consumes exactly the `takeWhile` prefix of the sorted list), derive the
current-week figures, and sort the results by priority (stably, as JS sort
is). -/
def calculateProjectBalances (s : AppState) : List ProjectBalance :=
  let sortedWeeks := jsSort (fun a b => decide (a.weekKey ≤ b.weekKey)) s.appData.weeks
  let currentWeek := getCurrentWeekData s
  let balances :=
    s.appData.projects.map (projectBalance s.currentKey sortedWeeks currentWeek)
  jsSort (fun a b =>
    decide (priorityOrder a.project.priority ≤ priorityOrder b.project.priority)) balances

/-- `String.prototype.padStart(2, "0")`. -/
def padStart2 (s : String) : String :=
  if s.length < 2 then String.mk (List.replicate (2 - s.length) '0') ++ s else s

/-- The week-number computation in `getWeekKey` (`types.ts`):
`Math.ceil((days + jan1.getDay() + 1) / 7)` where `days` is the day offset of
the Monday from January 1 and `w0` is January 1's weekday. For nonnegative
integer arguments the ceiling of the division by 7 is `(· + 6) / 7` in `Nat`. -/
def weekNumber (days w0 : Nat) : Nat := (days + w0 + 1 + 6) / 7

/-- `getWeekKey` (`types.ts`): `` `${year}-W${weekNum.toString().padStart(2, "0")}` ``.
A Monday is represented by its year, its year's January-1 weekday `w0`
(`jan1.getDay()`), and its day offset `days` from January 1. -/
def getWeekKey (year : Nat) (w0 days : Nat) : String :=
  toString year ++ "-W" ++ padStart2 (toString (weekNumber days w0))

/-! ### Derived notions used by the specification statements -/

/-- The slot-occupancy key of a block: the `(day, slotIndex)` pair. -/
def blockKey (b : TimeBlock) : DayOfWeek × Int := (b.day, b.slotIndex)

/-- The slot-occupancy key of a template entry. -/
def tmplKey (tb : TemplateBlock) : DayOfWeek × Int := (tb.day, tb.slotIndex)

/-- The identity-free content of a block: `(projectId, day, slotIndex)`. -/
def blockTriple (b : TimeBlock) : Nat × DayOfWeek × Int := (b.projectId, b.day, b.slotIndex)

/-- The content triple of a template entry. -/
def tmplTriple (tb : TemplateBlock) : Nat × DayOfWeek × Int :=
  (tb.projectId, tb.day, tb.slotIndex)

/-- Slot-occupancy uniqueness: no two blocks of the collection share a
`(day, slotIndex)` pair. -/
def SlotUnique (bs : List TimeBlock) : Prop := (bs.map blockKey).Nodup

/-- Slot-occupancy uniqueness for a template's entries. -/
def TmplSlotUnique (tbs : List TemplateBlock) : Prop := (tbs.map tmplKey).Nodup

/-- The state invariant: every stored week and every stored template is
slot-unique. The template half is needed because `applyTemplate` pours a
template's entries into a week unchecked. -/
def Inv (s : AppState) : Prop :=
  (∀ w ∈ s.appData.weeks, SlotUnique w.blocks) ∧
  (∀ t ∈ s.appData.templates, TmplSlotUnique t.blocks)

/-- The blocks minted by the `addTimeBlocks` loop for the given slot list,
with identities counted up from `n`. -/
def mkBlocks (projectId : Nat) (day : DayOfWeek) : List Int → Nat → List TimeBlock
  | [], _ => []
  | slot :: rest, n =>
    { id := n, projectId := projectId, day := day, slotIndex := slot } ::
      mkBlocks projectId day rest (n + 1)

/-- The in-memory state right after `initState` on an empty data file:
default `AppData` (empty collections, goal 40) with the current week ensured
by `ensureCurrentWeek`. The current Monday's key and start date are abstract
parameters. -/
def initState (key start : String) : AppState :=
  { appData :=
    { projects := [],
      weeks := [{ weekKey := key, startDate := start, blocks := [] }],
      templates := [], weeklyHourGoal := 40 },
    currentKey := key, currentStart := start, nextId := 0 }

/-- One mutating operation of the state module, as exported by `state.ts`. -/
inductive Step : AppState → AppState → Prop
  | addProject (s : AppState) (name : String) (target : ℚ) (priority : Priority) :
      Step s (addProject name target priority s).2
  | updateProject (s : AppState) (id : Nat) (u : ProjectUpdates) :
      Step s (updateProject id u s)
  | deleteProject (s : AppState) (id : Nat) :
      Step s (deleteProject id s)
  | addTimeBlock (s : AppState) (pid : Nat) (day : DayOfWeek) (slot : Int) :
      Step s (addTimeBlock pid day slot s).2
  | addTimeBlocks (s : AppState) (pid : Nat) (day : DayOfWeek) (a b : Int) :
      Step s (addTimeBlocks pid day a b s).2
  | removeTimeBlocksInRange (s : AppState) (day : DayOfWeek) (a b : Int) :
      Step s (removeTimeBlocksInRange day a b s)
  | removeTimeBlock (s : AppState) (id : Nat) :
      Step s (removeTimeBlock id s)
  | updateTimeBlockProject (s : AppState) (id pid : Nat) :
      Step s (updateTimeBlockProject id pid s)
  | saveCurrentWeekAsTemplate (s : AppState) (name : String) :
      Step s (saveCurrentWeekAsTemplate name s).2
  | applyTemplate (s : AppState) (id : Nat) :
      Step s (applyTemplate id s)
  | deleteTemplate (s : AppState) (id : Nat) :
      Step s (deleteTemplate id s)
  | setWeeklyHourGoal (s : AppState) (h : ℚ) :
      Step s (setWeeklyHourGoal h s)
  | gotoWeek (s : AppState) (key start : String) :
      Step s (gotoWeek key start s)

/-- A state of the running application: obtained from a fresh start by a
sequence of the exported mutating operations. -/
def Reachable (s : AppState) : Prop :=
  ∃ key start, Relation.ReflTransGen Step (initState key start) s

/-- Clearing the current week's block collection (the first half of what
`applyTemplate` does; used to state the save/clear/apply round trip). -/
def clearCurrentWeek (s : AppState) : AppState :=
  updateWeekInState { getCurrentWeekData s with blocks := [] } s

/-! ### Concrete fixture states for counterexamples and witnesses -/

/-- A project with a 10-hour weekly target. -/
def exProject : Project :=
  { id := 7, name := "alpha", weeklyHourTarget := 10, priority := Priority.Medium,
    colorIndex := 0 }

/-- Twelve half-hour blocks (6 hours) of `exProject` in the prior week. -/
def exPriorBlocks : List TimeBlock :=
  (List.range 12).map
    (fun i => { id := 100 + i, projectId := 7, day := DayOfWeek.Monday, slotIndex := (i : Int) })

/-- Ten half-hour blocks (5 hours) of `exProject` in the current week. -/
def exCurBlocks : List TimeBlock :=
  (List.range 10).map
    (fun i => { id := 200 + i, projectId := 7, day := DayOfWeek.Tuesday, slotIndex := (i : Int) })

/-- The prior (non-empty) week. -/
def exPriorWeek : WeekData :=
  { weekKey := "2025-W01", startDate := "2024-12-30", blocks := exPriorBlocks }

/-- The current week. -/
def exCurWeek : WeekData :=
  { weekKey := "2025-W02", startDate := "2025-01-06", blocks := exCurBlocks }

/-- Fixture: one project, one prior week with 6 hours logged, current week
with 5 hours logged. -/
def exState : AppState :=
  { appData :=
    { projects := [exProject], weeks := [exPriorWeek, exCurWeek],
      templates := [], weeklyHourGoal := 40 },
    currentKey := "2025-W02", currentStart := "2025-01-06", nextId := 1000 }

/-- Fixture for the `addTimeBlocks` day-count counterexample: the current week
already holds a foreign block on Monday at slot 0, outside the range [2,3]
about to be written. -/
def cx1State : AppState :=
  { appData :=
    { projects := [],
      weeks :=
        [{ weekKey := "2025-W02", startDate := "2025-01-06",
           blocks := [{ id := 50, projectId := 99, day := DayOfWeek.Monday, slotIndex := 0 }] }],
      templates := [], weeklyHourGoal := 40 },
    currentKey := "2025-W02", currentStart := "2025-01-06", nextId := 0 }

/-- A template with one entry for the existing project 7 and one entry for a
project 8 that does not exist. -/
def ex5Template : Template :=
  { id := 3, name := "tpl",
    blocks :=
      [{ projectId := 7, day := DayOfWeek.Monday, slotIndex := 2 },
       { projectId := 8, day := DayOfWeek.Monday, slotIndex := 3 }] }

/-- Fixture for `applyTemplate`: project 8 referenced by the template has been
deleted. -/
def ex5State : AppState :=
  { appData :=
    { projects := [exProject], weeks := [exCurWeek],
      templates := [ex5Template], weeklyHourGoal := 40 },
    currentKey := "2025-W02", currentStart := "2025-01-06", nextId := 1000 }

/-- Fixture for the save/clear/apply round trip: the current week holds two
blocks of the existing project 7 and there are no templates yet. -/
def ex6State : AppState :=
  { appData :=
    { projects := [exProject],
      weeks :=
        [{ weekKey := "2025-W02", startDate := "2025-01-06",
           blocks :=
             [{ id := 201, projectId := 7, day := DayOfWeek.Tuesday, slotIndex := 4 },
              { id := 202, projectId := 7, day := DayOfWeek.Wednesday, slotIndex := 5 }] }],
      templates := [], weeklyHourGoal := 40 },
    currentKey := "2025-W02", currentStart := "2025-01-06", nextId := 1000 }

/-- The balance row computed for `exProject` in `exState`. -/
def exBalance : ProjectBalance :=
  { project := exProject, weeklyTarget := 10, currentWeekLogged := 5,
    carryoverBalance := 4, effectiveAvailable := 14, percentComplete := 36,
    standing := WeeklyStanding.under }

/-! ### Helper lemmas -/

theorem find?_upsertWeek (week : WeekData) (ws : List WeekData) :
    (upsertWeek week ws).find? (fun w => decide (w.weekKey = week.weekKey)) = some week := by
  induction ws with
  | nil => simp [upsertWeek, List.find?]
  | cons w ws ih =>
    by_cases h : w.weekKey = week.weekKey
    · simp [upsertWeek, h, List.find?]
    · simp only [upsertWeek, if_neg h]
      rw [List.find?_cons_of_neg _ (by simp [h]), ih]

theorem mem_upsertWeek {x week : WeekData} {ws : List WeekData}
    (hx : x ∈ upsertWeek week ws) : x = week ∨ x ∈ ws := by
  induction ws with
  | nil => simpa [upsertWeek] using hx
  | cons w ws ih =>
    by_cases h : w.weekKey = week.weekKey
    · simp only [upsertWeek, if_pos h, List.mem_cons] at hx
      rcases hx with h1 | h1
      · exact Or.inl h1
      · exact Or.inr (List.mem_cons_of_mem _ h1)
    · simp only [upsertWeek, if_neg h, List.mem_cons] at hx
      rcases hx with h1 | h1
      · exact Or.inr (h1 ▸ List.mem_cons_self _ _)
      · rcases ih h1 with h2 | h2
        · exact Or.inl h2
        · exact Or.inr (List.mem_cons_of_mem _ h2)

theorem getCurrentWeekData_weekKey (s : AppState) :
    (getCurrentWeekData s).weekKey = s.currentKey := by
  unfold getCurrentWeekData
  cases hf : s.appData.weeks.find? (fun w => decide (w.weekKey = s.currentKey)) with
  | none => rfl
  | some w => simpa using List.find?_some hf

theorem getCurrentWeekData_updateWeekInState (week : WeekData) (s : AppState)
    (h : week.weekKey = s.currentKey) :
    getCurrentWeekData (updateWeekInState week s) = week := by
  unfold getCurrentWeekData updateWeekInState
  simp only [← h, find?_upsertWeek]

theorem slotUnique_nil : SlotUnique [] := by
  simp [SlotUnique]

theorem slotUnique_filter {bs : List TimeBlock} (h : SlotUnique bs)
    (p : TimeBlock → Bool) : SlotUnique (bs.filter p) := by
  exact List.Nodup.sublist (List.Sublist.map blockKey (List.filter_sublist bs)) h

theorem slotUnique_append_single {bs : List TimeBlock} {blk : TimeBlock}
    (h : SlotUnique bs) (hk : ∀ b ∈ bs, blockKey b ≠ blockKey blk) :
    SlotUnique (bs ++ [blk]) := by
  unfold SlotUnique at h ⊢
  rw [List.map_append]
  refine List.nodup_append.2 ⟨h, List.nodup_singleton _, ?_⟩
  intro k hk1 hk2
  simp only [List.map_cons, List.map_nil, List.mem_singleton] at hk2
  rcases List.mem_map.1 hk1 with ⟨b, hb, hbk⟩
  exact hk b hb (hbk.trans hk2)

theorem slotUnique_getCurrentWeekData {s : AppState}
    (h : ∀ w ∈ s.appData.weeks, SlotUnique w.blocks) :
    SlotUnique (getCurrentWeekData s).blocks := by
  unfold getCurrentWeekData
  cases hf : s.appData.weeks.find? (fun w => decide (w.weekKey = s.currentKey)) with
  | none => exact slotUnique_nil
  | some w => exact h w (List.mem_of_find?_eq_some hf)

theorem mkBlocks_map_slotIndex (pid : Nat) (day : DayOfWeek) :
    ∀ (slots : List Int) (n : Nat),
      (mkBlocks pid day slots n).map (fun b => b.slotIndex) = slots := by
  intro slots
  induction slots with
  | nil => intro n; simp [mkBlocks]
  | cons slot rest ih => intro n; simp [mkBlocks, ih]

theorem mkBlocks_length (pid : Nat) (day : DayOfWeek) :
    ∀ (slots : List Int) (n : Nat), (mkBlocks pid day slots n).length = slots.length := by
  intro slots
  induction slots with
  | nil => intro n; simp [mkBlocks]
  | cons slot rest ih => intro n; simp [mkBlocks, ih]

theorem mem_mkBlocks (pid : Nat) (day : DayOfWeek) :
    ∀ (slots : List Int) (n : Nat) (b : TimeBlock), b ∈ mkBlocks pid day slots n →
      b.projectId = pid ∧ b.day = day ∧ b.slotIndex ∈ slots ∧ n ≤ b.id := by
  intro slots
  induction slots with
  | nil => intro n b hb; simp [mkBlocks] at hb
  | cons slot rest ih =>
    intro n b hb
    simp only [mkBlocks, List.mem_cons] at hb
    rcases hb with rfl | hb
    · exact ⟨rfl, rfl, List.mem_cons_self _ _, le_refl _⟩
    · rcases ih (n + 1) b hb with ⟨h1, h2, h3, h4⟩
      exact ⟨h1, h2, List.mem_cons_of_mem _ h3, by omega⟩

theorem mkBlocks_map_key (pid : Nat) (day : DayOfWeek) :
    ∀ (slots : List Int) (n : Nat),
      (mkBlocks pid day slots n).map blockKey = slots.map (fun x => (day, x)) := by
  intro slots
  induction slots with
  | nil => intro n; simp [mkBlocks]
  | cons slot rest ih => intro n; simp [mkBlocks, blockKey, ih]

theorem addBlocksLoop_newBlocks (pid : Nat) (day : DayOfWeek) :
    ∀ (slots : List Int) (bs nb : List TimeBlock) (n : Nat),
      (addBlocksLoop pid day slots bs nb n).2.1 = nb ++ mkBlocks pid day slots n := by
  intro slots
  induction slots with
  | nil => intro bs nb n; simp [addBlocksLoop, mkBlocks]
  | cons slot rest ih =>
    intro bs nb n
    rw [addBlocksLoop, ih, mkBlocks]
    simp

theorem addBlocksLoop_blocks (pid : Nat) (day : DayOfWeek) :
    ∀ (slots : List Int) (bs nb : List TimeBlock) (n : Nat), slots.Nodup →
      (addBlocksLoop pid day slots bs nb n).1 =
        bs.filter (fun b => !decide (b.day = day ∧ b.slotIndex ∈ slots)) ++
          mkBlocks pid day slots n := by
  intro slots
  induction slots with
  | nil => intro bs nb n _; simp [addBlocksLoop, mkBlocks]
  | cons slot rest ih =>
    intro bs nb n hnd
    rcases List.nodup_cons.1 hnd with ⟨hslot, hrest⟩
    rw [addBlocksLoop, ih _ _ _ hrest, List.filter_append, List.filter_filter]
    have h1 : ∀ b : TimeBlock,
        ((!decide (b.day = day ∧ b.slotIndex ∈ rest)) &&
          (!decide (b.day = day ∧ b.slotIndex = slot))) =
        (!decide (b.day = day ∧ b.slotIndex ∈ slot :: rest)) := by
      intro b
      by_cases hd : b.day = day <;>
        by_cases hs : b.slotIndex = slot <;>
        by_cases hr : b.slotIndex ∈ rest <;>
        simp [hd, hs, hr]
    have h2 : List.filter (fun b => !decide (b.day = day ∧ b.slotIndex ∈ rest))
        [{ id := n, projectId := pid, day := day, slotIndex := slot : TimeBlock }] =
        [{ id := n, projectId := pid, day := day, slotIndex := slot : TimeBlock }] := by
      simp [List.filter, hslot]
    rw [List.filter_congr (fun b _ => h1 b), h2, mkBlocks, List.append_assoc]
    rfl

theorem slotRange_length (lo hi : Int) :
    (slotRange lo hi).length = (hi + 1 - lo).toNat := by
  unfold slotRange
  rw [List.length_map, List.length_range]

theorem mem_slotRange {x lo hi : Int} : x ∈ slotRange lo hi ↔ lo ≤ x ∧ x ≤ hi := by
  unfold slotRange
  rw [List.mem_map]
  constructor
  · rintro ⟨i, hi1, rfl⟩
    rw [List.mem_range] at hi1
    omega
  · rintro ⟨h1, h2⟩
    refine ⟨(x - lo).toNat, ?_, ?_⟩
    · rw [List.mem_range]; omega
    · omega

theorem slotRange_nodup (lo hi : Int) : (slotRange lo hi).Nodup := by
  unfold slotRange
  apply List.Nodup.map
  · intro i j hij
    simpa using hij
  · exact List.nodup_range _

theorem map_replaceFirst {α β : Type} (p : α → Bool) (f : α → α) (g : α → β)
    (hf : ∀ a, g (f a) = g a) : ∀ l : List α, (replaceFirst p f l).map g = l.map g := by
  intro l
  induction l with
  | nil => rfl
  | cons a as ih =>
    by_cases h : p a
    · simp [replaceFirst, h, hf]
    · simp [replaceFirst, h, ih]

theorem buildTemplateBlocks_map {γ : Type} (projects : List Project)
    (g : TimeBlock → γ) (f : TemplateBlock → γ)
    (hgf : ∀ (tb : TemplateBlock) (n : Nat),
      g { id := n, projectId := tb.projectId, day := tb.day, slotIndex := tb.slotIndex } = f tb) :
    ∀ (tbs : List TemplateBlock) (n : Nat),
      (buildTemplateBlocks projects tbs n).1.map g =
        (tbs.filter (fun tb => projects.any (fun p => decide (p.id = tb.projectId)))).map f := by
  intro tbs
  induction tbs with
  | nil => intro n; simp [buildTemplateBlocks]
  | cons tb rest ih =>
    intro n
    by_cases h : projects.any (fun p => decide (p.id = tb.projectId))
    · rw [buildTemplateBlocks, if_pos h]
      simp only [List.map_cons, ih, List.filter_cons, h, List.map_cons, hgf]
      rfl
    · rw [buildTemplateBlocks, if_neg h, ih]
      simp only [List.filter_cons]
      rw [if_neg (by simpa using h)]

theorem mem_buildTemplateBlocks_id (projects : List Project) :
    ∀ (tbs : List TemplateBlock) (n : Nat) (b : TimeBlock),
      b ∈ (buildTemplateBlocks projects tbs n).1 → n ≤ b.id := by
  intro tbs
  induction tbs with
  | nil => intro n b hb; simp [buildTemplateBlocks] at hb
  | cons tb rest ih =>
    intro n b hb
    by_cases h : projects.any (fun p => decide (p.id = tb.projectId))
    · rw [buildTemplateBlocks, if_pos h] at hb
      simp only [List.mem_cons] at hb
      rcases hb with rfl | hb
      · exact le_refl _
      · have := ih (n + 1) b hb
        omega
    · rw [buildTemplateBlocks, if_neg h] at hb
      exact ih n b hb

theorem buildTemplateBlocks_ids_nodup (projects : List Project) :
    ∀ (tbs : List TemplateBlock) (n : Nat),
      ((buildTemplateBlocks projects tbs n).1.map (fun b => b.id)).Nodup := by
  intro tbs
  induction tbs with
  | nil => intro n; simp [buildTemplateBlocks]
  | cons tb rest ih =>
    intro n
    by_cases h : projects.any (fun p => decide (p.id = tb.projectId))
    · rw [buildTemplateBlocks, if_pos h]
      simp only [List.map_cons, List.nodup_cons]
      refine ⟨?_, ih (n + 1)⟩
      intro hmem
      rcases List.mem_map.1 hmem with ⟨b, hb, hbid⟩
      have := mem_buildTemplateBlocks_id projects rest (n + 1) b hb
      omega
    · rw [buildTemplateBlocks, if_neg h]
      exact ih n

theorem mem_insertStable {α : Type} (le : α → α → Bool) (a x : α) :
    ∀ l : List α, (x ∈ insertStable le a l ↔ x = a ∨ x ∈ l) := by
  intro l
  induction l with
  | nil => simp [insertStable]
  | cons b bs ih =>
    by_cases h : le b a
    · simp only [insertStable, if_pos h, List.mem_cons, ih]
      tauto
    · simp only [insertStable, if_neg h, List.mem_cons]

theorem mem_jsSort_aux {α : Type} (le : α → α → Bool) (x : α) :
    ∀ (l acc : List α),
      (x ∈ l.foldl (fun acc y => insertStable le y acc) acc ↔ x ∈ acc ∨ x ∈ l) := by
  intro l
  induction l with
  | nil => intro acc; simp
  | cons a as ih =>
    intro acc
    rw [List.foldl_cons, ih, mem_insertStable]
    simp only [List.mem_cons]
    tauto

theorem mem_jsSort {α : Type} (le : α → α → Bool) (x : α) (l : List α) :
    x ∈ jsSort le l ↔ x ∈ l := by
  unfold jsSort
  rw [mem_jsSort_aux]
  simp

theorem length_filter_le_one_of_nodup_map {α β : Type} [DecidableEq β] (g : α → β) (k : β) :
    ∀ l : List α, (l.map g).Nodup →
      (l.filter (fun x => decide (g x = k))).length ≤ 1 := by
  intro l
  induction l with
  | nil => intro _; simp
  | cons a as ih =>
    intro hnd
    simp only [List.map_cons, List.nodup_cons] at hnd
    by_cases h : g a = k
    · have hnil : as.filter (fun x => decide (g x = k)) = [] := by
        rw [List.filter_eq_nil_iff]
        intro x hx
        simp only [decide_eq_true_eq]
        intro hgx
        exact hnd.1 (List.mem_map.2 ⟨x, hx, hgx.trans h.symm⟩)
      simp [List.filter_cons, h, hnil]
    · simp only [List.filter_cons, h, decide_False]
      simpa using ih hnd.2

/-! ### Preservation of the slot-uniqueness invariant -/

theorem Inv_initState (key start : String) : Inv (initState key start) := by
  constructor
  · intro w hw
    simp only [initState, List.mem_singleton] at hw
    subst hw
    exact slotUnique_nil
  · intro t ht
    simp [initState] at ht

theorem Inv_updateWeekInState {s : AppState} {week : WeekData} (hI : Inv s)
    (hw : SlotUnique week.blocks) : Inv (updateWeekInState week s) := by
  constructor
  · intro w hwmem
    rcases mem_upsertWeek hwmem with rfl | hmem
    · exact hw
    · exact hI.1 w hmem
  · exact hI.2

theorem Inv_nextId {s : AppState} (hI : Inv s) (n : Nat) :
    Inv { s with nextId := n } := hI

theorem Inv_addProject {s : AppState} (hI : Inv s) (name : String) (t : ℚ)
    (pr : Priority) : Inv (addProject name t pr s).2 := by
  exact ⟨hI.1, hI.2⟩

theorem Inv_updateProject {s : AppState} (hI : Inv s) (id : Nat) (u : ProjectUpdates) :
    Inv (updateProject id u s) := by
  unfold updateProject
  cases s.appData.projects.find? (fun p => decide (p.id = id)) with
  | none => exact hI
  | some _ => exact ⟨hI.1, hI.2⟩

theorem Inv_deleteProject {s : AppState} (hI : Inv s) (id : Nat) :
    Inv (deleteProject id s) := by
  constructor
  · intro w hw
    simp only [deleteProject, List.mem_map] at hw
    rcases hw with ⟨w0, hw0, rfl⟩
    exact slotUnique_filter (hI.1 w0 hw0) _
  · exact hI.2

theorem Inv_addTimeBlock {s : AppState} (hI : Inv s) (pid : Nat) (day : DayOfWeek)
    (slot : Int) : Inv (addTimeBlock pid day slot s).2 := by
  simp only [addTimeBlock, generateId]
  cases hf : (getCurrentWeekData s).blocks.find?
      (fun b => decide (b.day = day ∧ b.slotIndex = slot)) with
  | some b => exact hI
  | none =>
    refine Inv_updateWeekInState (Inv_nextId hI _) ?_
    refine slotUnique_append_single (slotUnique_getCurrentWeekData hI.1) ?_
    intro b hb
    have hnb := List.find?_eq_none.1 hf b hb
    simp only [decide_eq_true_eq] at hnb
    simp only [blockKey]
    intro heq
    have hd : b.day = day := congrArg Prod.fst heq
    have hs : b.slotIndex = slot := congrArg Prod.snd heq
    exact hnb ⟨hd, hs⟩

theorem slotUnique_loop_result {s : AppState} (hI : Inv s) (pid : Nat)
    (day : DayOfWeek) (slots : List Int) (hnd : slots.Nodup) (n : Nat) :
    SlotUnique
      (addBlocksLoop pid day slots (getCurrentWeekData s).blocks [] n).1 := by
  rw [addBlocksLoop_blocks pid day slots _ _ n hnd]
  unfold SlotUnique
  rw [List.map_append, mkBlocks_map_key]
  refine List.nodup_append.2 ⟨?_, ?_, ?_⟩
  · exact slotUnique_filter (slotUnique_getCurrentWeekData hI.1) _
  · refine List.Nodup.map ?_ hnd
    intro x y hxy
    simpa using hxy
  · intro k hk1 hk2
    rcases List.mem_map.1 hk1 with ⟨b, hb, rfl⟩
    rcases List.mem_map.1 hk2 with ⟨x, hx, hxk⟩
    rcases List.mem_filter.1 hb with ⟨hbmem, hbp⟩
    simp only [Bool.not_eq_eq_eq_not, Bool.not_true, decide_eq_false_iff_not] at hbp
    have hday : b.day = day := by
      have := congrArg Prod.fst hxk
      simpa [blockKey] using this.symm
    have hslot : b.slotIndex = x := by
      have := congrArg Prod.snd hxk
      simpa [blockKey] using this.symm
    exact hbp ⟨hday, hslot ▸ hx⟩

theorem Inv_addTimeBlocks {s : AppState} (hI : Inv s) (pid : Nat) (day : DayOfWeek)
    (a b : Int) : Inv (addTimeBlocks pid day a b s).2 := by
  unfold addTimeBlocks
  by_cases h : (addBlocksLoop pid day (slotRange (min a b) (max a b))
      (getCurrentWeekData s).blocks [] s.nextId).2.1.length > 0
  · simp only [h, if_true]
    exact Inv_updateWeekInState (Inv_nextId hI _)
      (slotUnique_loop_result hI pid day _ (slotRange_nodup _ _) s.nextId)
  · simp only [h, if_false]
    exact Inv_nextId hI _

theorem Inv_removeTimeBlocksInRange {s : AppState} (hI : Inv s) (day : DayOfWeek)
    (a b : Int) : Inv (removeTimeBlocksInRange day a b s) := by
  simp only [removeTimeBlocksInRange]
  by_cases h : (List.filter
      (fun blk => !decide (blk.day = day ∧ min a b ≤ blk.slotIndex ∧ blk.slotIndex ≤ max a b))
      (getCurrentWeekData s).blocks).length = (getCurrentWeekData s).blocks.length
  · rw [if_neg (not_not_intro h)]
    exact hI
  · rw [if_pos h]
    exact Inv_updateWeekInState hI
      (slotUnique_filter (slotUnique_getCurrentWeekData hI.1) _)

theorem Inv_removeTimeBlock {s : AppState} (hI : Inv s) (id : Nat) :
    Inv (removeTimeBlock id s) := by
  exact Inv_updateWeekInState hI
    (slotUnique_filter (slotUnique_getCurrentWeekData hI.1) _)

theorem Inv_updateTimeBlockProject {s : AppState} (hI : Inv s) (id pid : Nat) :
    Inv (updateTimeBlockProject id pid s) := by
  simp only [updateTimeBlockProject]
  cases (getCurrentWeekData s).blocks.find? (fun b => decide (b.id = id)) with
  | none => exact hI
  | some _ =>
    refine Inv_updateWeekInState hI ?_
    unfold SlotUnique
    rw [map_replaceFirst (fun b => decide (b.id = id))
      (fun b => { b with projectId := pid }) blockKey (fun a => rfl)]
    exact slotUnique_getCurrentWeekData hI.1

theorem Inv_saveCurrentWeekAsTemplate {s : AppState} (hI : Inv s) (name : String) :
    Inv (saveCurrentWeekAsTemplate name s).2 := by
  constructor
  · exact hI.1
  · intro t ht
    simp only [saveCurrentWeekAsTemplate, generateId, List.mem_append,
      List.mem_singleton] at ht
    rcases ht with ht | rfl
    · exact hI.2 t ht
    · unfold TmplSlotUnique
      rw [List.map_map]
      exact slotUnique_getCurrentWeekData hI.1

theorem Inv_applyTemplate {s : AppState} (hI : Inv s) (id : Nat) :
    Inv (applyTemplate id s) := by
  unfold applyTemplate
  cases hf : s.appData.templates.find? (fun t => decide (t.id = id)) with
  | none => exact hI
  | some tpl =>
    refine Inv_updateWeekInState (Inv_nextId hI _) ?_
    unfold SlotUnique
    rw [buildTemplateBlocks_map _ blockKey tmplKey (fun tb n => rfl)]
    refine List.Nodup.sublist (List.Sublist.map tmplKey (List.filter_sublist _)) ?_
    exact hI.2 tpl (List.mem_of_find?_eq_some hf)

theorem Inv_deleteTemplate {s : AppState} (hI : Inv s) (id : Nat) :
    Inv (deleteTemplate id s) := by
  constructor
  · exact hI.1
  · intro t ht
    simp only [deleteTemplate, List.mem_filter] at ht
    exact hI.2 t ht.1

theorem Inv_setWeeklyHourGoal {s : AppState} (hI : Inv s) (h : ℚ) :
    Inv (setWeeklyHourGoal h s) := ⟨hI.1, hI.2⟩

theorem Inv_gotoWeek {s : AppState} (hI : Inv s) (key start : String) :
    Inv (gotoWeek key start s) := by
  simp only [gotoWeek]
  by_cases h : s.appData.weeks.any (fun w => decide (w.weekKey = key)) = true
  · rw [if_pos h]
    exact ⟨hI.1, hI.2⟩
  · rw [if_neg h]
    constructor
    · intro w hw
      rcases List.mem_append.1 hw with hmem | hmem
      · exact hI.1 w hmem
      · rw [List.mem_singleton.1 hmem]
        exact slotUnique_nil
    · exact hI.2

theorem Inv_step {s s' : AppState} (hI : Inv s) (hstep : Step s s') : Inv s' := by
  cases hstep with
  | addProject name target priority => exact Inv_addProject hI name target priority
  | updateProject id u => exact Inv_updateProject hI id u
  | deleteProject id => exact Inv_deleteProject hI id
  | addTimeBlock pid day slot => exact Inv_addTimeBlock hI pid day slot
  | addTimeBlocks pid day a b => exact Inv_addTimeBlocks hI pid day a b
  | removeTimeBlocksInRange day a b => exact Inv_removeTimeBlocksInRange hI day a b
  | removeTimeBlock id => exact Inv_removeTimeBlock hI id
  | updateTimeBlockProject id pid => exact Inv_updateTimeBlockProject hI id pid
  | saveCurrentWeekAsTemplate name => exact Inv_saveCurrentWeekAsTemplate hI name
  | applyTemplate id => exact Inv_applyTemplate hI id
  | deleteTemplate id => exact Inv_deleteTemplate hI id
  | setWeeklyHourGoal h => exact Inv_setWeeklyHourGoal hI h
  | gotoWeek key start => exact Inv_gotoWeek hI key start

theorem Inv_reachable {s : AppState} (h : Reachable s) : Inv s := by
  rcases h with ⟨key, start, h⟩
  induction h with
  | refl => exact Inv_initState key start
  | tail hsteps hstep ih => exact Inv_step ih hstep

/-! ### Further helper lemmas for the claims -/

theorem padStart2_toString_mono :
    ∀ m, m < 55 → ∀ n, n < 55 → 1 ≤ n → n ≤ m →
      padStart2 (toString n) ≤ padStart2 (toString m) := by decide!

theorem str_le_append (p : String) {a b : String} (h : a ≤ b) : p ++ a ≤ p ++ b := by
  rcases lt_or_eq_of_le h with hlt | heq
  · refine le_of_lt ?_
    rw [String.lt_iff_toList_lt] at hlt ⊢
    have ha : (p ++ a).toList = p.toList ++ a.toList := by
      simp [String.toList, String.data_append]
    have hb : (p ++ b).toList = p.toList ++ b.toList := by
      simp [String.toList, String.data_append]
    rw [ha, hb]
    have hlex : List.Lex (fun c d : Char => c < d) a.toList b.toList := hlt
    exact List.Lex.append_left _ hlex _
  · rw [heq]

theorem find?_append_singleton {α : Type} (p : α → Bool) (l : List α) (x : α)
    (h : ∀ y ∈ l, ¬ p y = true) :
    (l ++ [x]).find? p = if p x then some x else none := by
  induction l with
  | nil =>
    by_cases hpx : p x <;> simp [List.find?, hpx]
  | cons a as ih =>
    rw [List.cons_append, List.find?_cons_of_neg _ (h a (List.mem_cons_self _ _))]
    exact ih (fun y hy => h y (List.mem_cons_of_mem _ hy))

theorem addTimeBlocks_currentBlocks (pid : Nat) (day : DayOfWeek) (a b : Int)
    (s : AppState) :
    (getCurrentWeekData (addTimeBlocks pid day a b s).2).blocks =
      (addBlocksLoop pid day (slotRange (min a b) (max a b))
        (getCurrentWeekData s).blocks [] s.nextId).1 := by
  simp only [addTimeBlocks]
  have hlen : (addBlocksLoop pid day (slotRange (min a b) (max a b))
      (getCurrentWeekData s).blocks [] s.nextId).2.1.length > 0 := by
    rw [addBlocksLoop_newBlocks, List.nil_append, mkBlocks_length, slotRange_length]
    rcases le_total a b with h | h
    · rw [min_eq_left h, max_eq_right h]; omega
    · rw [min_eq_right h, max_eq_left h]; omega
  rw [if_pos hlen]
  have hkey : ({ getCurrentWeekData s with
      blocks := (addBlocksLoop pid day (slotRange (min a b) (max a b))
        (getCurrentWeekData s).blocks [] s.nextId).1 } : WeekData).weekKey =
      ({ s with nextId := (addBlocksLoop pid day (slotRange (min a b) (max a b))
        (getCurrentWeekData s).blocks [] s.nextId).2.2 } : AppState).currentKey := by
    simpa using getCurrentWeekData_weekKey s
  rw [getCurrentWeekData_updateWeekInState _ _ hkey]

/-! ### The claims -/

/-- C2: for a project with weekly target 10, one prior non-empty week logging
6 hours and a current week logging 5 hours, `calculateProjectBalances` yields
carryover 4, effectiveAvailable 14, percentComplete 36 and standing under. -/
theorem claimC2 : calculateProjectBalances exState =
    [{ project := exProject, weeklyTarget := 10, currentWeekLogged := 5,
       carryoverBalance := 4, effectiveAvailable := 14, percentComplete := 36,
       standing := WeeklyStanding.under }] := by decide!

/-- C3: in every reachable application state, every stored week has at most
one block per `(day, slotIndex)` pair; this is preserved by every exported
mutating operation, as the step-indexed reachability predicate quantifies
over exactly those operations. -/
theorem claimC3 {s : AppState} (h : Reachable s) :
    ∀ w ∈ s.appData.weeks, ∀ (d : DayOfWeek) (i : Int),
      (w.blocks.filter (fun blk => decide (blk.day = d ∧ blk.slotIndex = i))).length ≤ 1 := by
  intro w hw d i
  have hInv := Inv_reachable h
  have hn := hInv.1 w hw
  have hcongr : ∀ blk ∈ w.blocks,
      (decide (blk.day = d ∧ blk.slotIndex = i)) = (decide (blockKey blk = (d, i))) := by
    intro blk _
    simp [blockKey, Prod.ext_iff]
  rw [List.filter_congr hcongr]
  exact length_filter_le_one_of_nodup_map blockKey (d, i) w.blocks hn

/-- Witness for C3 at a concrete reachable state: the initial state after one
`addTimeBlocks` drag over Monday slots 0–3. -/
theorem claimC3_witness :
    Reachable (addTimeBlocks 7 DayOfWeek.Monday 0 3 (initState "2025-W01" "2024-12-30")).2 ∧
    (∀ w ∈ (addTimeBlocks 7 DayOfWeek.Monday 0 3
        (initState "2025-W01" "2024-12-30")).2.appData.weeks,
      ∀ (d : DayOfWeek) (i : Int),
        (w.blocks.filter (fun blk => decide (blk.day = d ∧ blk.slotIndex = i))).length ≤ 1) :=
  ⟨⟨"2025-W01", "2024-12-30",
    Relation.ReflTransGen.tail Relation.ReflTransGen.refl
      (Step.addTimeBlocks _ 7 DayOfWeek.Monday 0 3)⟩,
   claimC3 ⟨"2025-W01", "2024-12-30",
    Relation.ReflTransGen.tail Relation.ReflTransGen.refl
      (Step.addTimeBlocks _ 7 DayOfWeek.Monday 0 3)⟩⟩

/-- C4: after `deleteProject id`, the project is gone, no block referencing it
survives in any week, and referential integrity (every block points at an
existing project), if it held before, still holds afterwards. -/
theorem claimC4 (s : AppState) (id : Nat) :
    (∀ p ∈ (deleteProject id s).appData.projects, p.id ≠ id) ∧
    (∀ w ∈ (deleteProject id s).appData.weeks, ∀ blk ∈ w.blocks, blk.projectId ≠ id) ∧
    ((∀ w ∈ s.appData.weeks, ∀ blk ∈ w.blocks,
        ∃ p ∈ s.appData.projects, p.id = blk.projectId) →
      ∀ w ∈ (deleteProject id s).appData.weeks, ∀ blk ∈ w.blocks,
        ∃ p ∈ (deleteProject id s).appData.projects, p.id = blk.projectId) := by
  refine ⟨?_, ?_, ?_⟩
  · intro p hp
    rcases List.mem_filter.1 hp with ⟨_, hpd⟩
    simpa using hpd
  · intro w hw blk hb
    simp only [deleteProject, List.mem_map] at hw
    rcases hw with ⟨w0, hw0, rfl⟩
    rcases List.mem_filter.1 hb with ⟨_, hbd⟩
    simpa using hbd
  · intro href w hw blk hb
    simp only [deleteProject, List.mem_map] at hw
    rcases hw with ⟨w0, hw0, rfl⟩
    rcases List.mem_filter.1 hb with ⟨hb0, hbd⟩
    rcases href w0 hw0 blk hb0 with ⟨p, hp, hpid⟩
    refine ⟨p, List.mem_filter.2 ⟨hp, ?_⟩, hpid⟩
    simp only [Bool.not_eq_eq_eq_not, Bool.not_true, decide_eq_false_iff_not] at hbd ⊢
    rw [hpid]
    exact hbd

/-- Witness for C4: deleting project 7 from the two-week fixture, whose blocks
all reference project 7. -/
theorem claimC4_witness :
    (∀ p ∈ (deleteProject 7 exState).appData.projects, p.id ≠ 7) ∧
    (∀ w ∈ (deleteProject 7 exState).appData.weeks, ∀ blk ∈ w.blocks, blk.projectId ≠ 7) ∧
    (∀ w ∈ (deleteProject 7 exState).appData.weeks, ∀ blk ∈ w.blocks,
      ∃ p ∈ (deleteProject 7 exState).appData.projects, p.id = blk.projectId) :=
  ⟨(claimC4 exState 7).1, (claimC4 exState 7).2.1,
   (claimC4 exState 7).2.2 (by decide!)⟩

/-- C9: `getWeekKey` is monotone under the lexicographic string order for
Mondays of the same calendar year, here represented by their common year and
January-1 weekday `w0 ≤ 6` and their day offsets `d1 ≤ d2 ≤ 365` from
January 1. -/
theorem claimC9 (year w0 d1 d2 : Nat) (hw : w0 ≤ 6) (h12 : d1 ≤ d2) (h2 : d2 ≤ 365) :
    getWeekKey year w0 d1 ≤ getWeekKey year w0 d2 := by
  have hmono : weekNumber d1 w0 ≤ weekNumber d2 w0 := Nat.div_le_div_right (by omega)
  have h1b : 1 ≤ weekNumber d1 w0 := by unfold weekNumber; omega
  have h2b : weekNumber d2 w0 ≤ 54 := by unfold weekNumber; omega
  have hpad := padStart2_toString_mono (weekNumber d2 w0) (by omega)
    (weekNumber d1 w0) (by omega) h1b hmono
  unfold getWeekKey
  exact str_le_append _ hpad

/-- Witness for C9: the first Monday-offset pair 0 and 100 of 2025 (January 1,
2025 is a Wednesday, weekday 3). -/
theorem claimC9_witness :
    ((3 : Nat) ≤ 6 ∧ (0 : Nat) ≤ 100 ∧ (100 : Nat) ≤ 365) ∧
    getWeekKey 2025 3 0 ≤ getWeekKey 2025 3 100 :=
  ⟨⟨by decide, by decide, by decide⟩,
   claimC9 2025 3 0 100 (by decide) (by decide) (by decide)⟩

/-- C10: `addTimeBlocks` returns exactly `|b-a|+1` blocks, each carrying the
given project and day, whose slot indices are exactly the integers from
`min a b` to `max a b` in increasing order. -/
theorem claimC10 (pid : Nat) (day : DayOfWeek) (a b : Int) (s : AppState) :
    ((addTimeBlocks pid day a b s).1.length = (b - a).natAbs + 1) ∧
    (∀ blk ∈ (addTimeBlocks pid day a b s).1, blk.projectId = pid ∧ blk.day = day) ∧
    ((addTimeBlocks pid day a b s).1.map (fun blk => blk.slotIndex) =
      slotRange (min a b) (max a b)) := by
  have hfst : (addTimeBlocks pid day a b s).1 =
      mkBlocks pid day (slotRange (min a b) (max a b)) s.nextId := by
    simp only [addTimeBlocks]
    by_cases h : (addBlocksLoop pid day (slotRange (min a b) (max a b))
        (getCurrentWeekData s).blocks [] s.nextId).2.1.length > 0
    · rw [if_pos h]
      simpa using addBlocksLoop_newBlocks pid day _ (getCurrentWeekData s).blocks [] s.nextId
    · rw [if_neg h]
      simpa using addBlocksLoop_newBlocks pid day _ (getCurrentWeekData s).blocks [] s.nextId
  rw [hfst]
  refine ⟨?_, ?_, ?_⟩
  · rw [mkBlocks_length, slotRange_length]
    rcases le_total a b with h | h
    · rw [min_eq_left h, max_eq_right h]; omega
    · rw [min_eq_right h, max_eq_left h]; omega
  · intro blk hblk
    have hmem := mem_mkBlocks pid day _ _ blk hblk
    exact ⟨hmem.1, hmem.2.1⟩
  · exact mkBlocks_map_slotIndex pid day _ _

theorem applyTemplate_currentBlocks (tid : Nat) (s : AppState) (tpl : Template)
    (hf : s.appData.templates.find? (fun t => decide (t.id = tid)) = some tpl) :
    (getCurrentWeekData (applyTemplate tid s)).blocks =
      (buildTemplateBlocks s.appData.projects tpl.blocks s.nextId).1 := by
  simp only [applyTemplate, hf]
  rw [getCurrentWeekData_updateWeekInState]
  simpa using getCurrentWeekData_weekKey s

/-- C1 counterexample: with a foreign block already on Monday slot 0, the call
`addTimeBlocks` over Monday slots [2,3] leaves 3 blocks on Monday, not
`|3-2|+1 = 2` — prior blocks of the day outside the written range survive. -/
theorem claimC1_counterexample :
    ((getCurrentWeekData (addTimeBlocks 1 DayOfWeek.Monday 2 3 cx1State).2).blocks.filter
      (fun blk => decide (blk.day = DayOfWeek.Monday))).length = 3 ∧
    (3 : Nat) ≠ ((3 : Int) - 2).natAbs + 1 := by decide!

/-- C1 (amended): after `addTimeBlocks` over `[a,b]`, the current week holds
exactly `|b-a|+1` blocks for that day **within the written slot range
`[min a b, max a b]`**, each belonging to the new project, regardless of prior
occupancy; blocks of the day outside the range are not covered. -/
theorem claimC1 (pid : Nat) (day : DayOfWeek) (a b : Int) (s : AppState) :
    (((getCurrentWeekData (addTimeBlocks pid day a b s).2).blocks.filter
        (fun blk => decide (blk.day = day ∧ min a b ≤ blk.slotIndex ∧
          blk.slotIndex ≤ max a b))).length = (b - a).natAbs + 1) ∧
    (∀ blk ∈ (getCurrentWeekData (addTimeBlocks pid day a b s).2).blocks.filter
        (fun blk => decide (blk.day = day ∧ min a b ≤ blk.slotIndex ∧
          blk.slotIndex ≤ max a b)),
      blk.projectId = pid) := by
  rw [addTimeBlocks_currentBlocks]
  rw [addBlocksLoop_blocks pid day _ _ _ _ (slotRange_nodup _ _)]
  rw [List.filter_append]
  have hfil1 : List.filter
      (fun blk => decide (blk.day = day ∧ min a b ≤ blk.slotIndex ∧ blk.slotIndex ≤ max a b))
      (List.filter (fun blk => !decide (blk.day = day ∧ blk.slotIndex ∈ slotRange (min a b) (max a b)))
        (getCurrentWeekData s).blocks) = [] := by
    rw [List.filter_eq_nil_iff]
    intro x hx
    rcases List.mem_filter.1 hx with ⟨_, hxp⟩
    simp only [Bool.not_eq_eq_eq_not, Bool.not_true, decide_eq_false_iff_not] at hxp
    simp only [decide_eq_true_eq]
    intro hcon
    exact hxp ⟨hcon.1, mem_slotRange.2 ⟨hcon.2.1, hcon.2.2⟩⟩
  have hfil2 : List.filter
      (fun blk => decide (blk.day = day ∧ min a b ≤ blk.slotIndex ∧ blk.slotIndex ≤ max a b))
      (mkBlocks pid day (slotRange (min a b) (max a b)) s.nextId) =
      mkBlocks pid day (slotRange (min a b) (max a b)) s.nextId := by
    rw [List.filter_eq_self]
    intro x hx
    rcases mem_mkBlocks pid day _ _ x hx with ⟨_, h2, h3, _⟩
    have hb := mem_slotRange.1 h3
    simp only [decide_eq_true_eq]
    exact ⟨h2, hb.1, hb.2⟩
  rw [hfil1, hfil2, List.nil_append]
  refine ⟨?_, ?_⟩
  · rw [mkBlocks_length, slotRange_length]
    rcases le_total a b with h | h
    · rw [min_eq_left h, max_eq_right h]; omega
    · rw [min_eq_right h, max_eq_left h]; omega
  · intro blk hblk
    exact (mem_mkBlocks pid day _ _ blk hblk).1

/-- C5: `applyTemplate` is a silent no-op for an unknown template id;
otherwise it replaces the current week's blocks entirely with fresh-identity
blocks built from exactly the template entries whose project still exists
(identities are new — at or above the identity counter — and pairwise
distinct). -/
theorem claimC5 (s : AppState) (tid : Nat) :
    ((∀ t ∈ s.appData.templates, t.id ≠ tid) → applyTemplate tid s = s) ∧
    (∀ tpl, s.appData.templates.find? (fun t => decide (t.id = tid)) = some tpl →
      ((getCurrentWeekData (applyTemplate tid s)).blocks.map blockTriple =
        (tpl.blocks.filter
          (fun tb => s.appData.projects.any (fun p => decide (p.id = tb.projectId)))).map
            tmplTriple) ∧
      (∀ blk ∈ (getCurrentWeekData (applyTemplate tid s)).blocks, s.nextId ≤ blk.id) ∧
      ((getCurrentWeekData (applyTemplate tid s)).blocks.map (fun blk => blk.id)).Nodup) := by
  constructor
  · intro h
    have hnone : s.appData.templates.find? (fun t => decide (t.id = tid)) = none := by
      rw [List.find?_eq_none]
      intro t ht
      simp only [decide_eq_true_eq]
      exact h t ht
    simp only [applyTemplate, hnone]
  · intro tpl hf
    rw [applyTemplate_currentBlocks tid s tpl hf]
    refine ⟨?_, ?_, ?_⟩
    · exact buildTemplateBlocks_map _ blockTriple tmplTriple (fun tb n => rfl) tpl.blocks s.nextId
    · intro blk hblk
      exact mem_buildTemplateBlocks_id _ tpl.blocks s.nextId blk hblk
    · exact buildTemplateBlocks_ids_nodup _ tpl.blocks s.nextId

/-- Witness for C5: applying the fixture template whose second entry
references the deleted project 8 keeps only the entry for project 7. -/
theorem claimC5_witness :
    (ex5State.appData.templates.find? (fun t => decide (t.id = 3)) = some ex5Template) ∧
    ((getCurrentWeekData (applyTemplate 3 ex5State)).blocks.map blockTriple =
      (ex5Template.blocks.filter
        (fun tb => ex5State.appData.projects.any (fun p => decide (p.id = tb.projectId)))).map
          tmplTriple) :=
  ⟨by decide!, ((claimC5 ex5State 3).2 ex5Template (by decide!)).1⟩

/-- C7: every balance row's `percentComplete` is the branch value — rounded
share of the effective budget when it is positive, else 100 or 0 according to
whether hours were logged — clamped from above to 100 (and only from above),
and therefore never exceeds 100. -/
theorem claimC7 (s : AppState) :
    ∀ bal ∈ calculateProjectBalances s,
      bal.percentComplete =
        min (if 0 < bal.effectiveAvailable
            then jsRound (bal.currentWeekLogged / bal.effectiveAvailable * 100)
            else if 0 < bal.currentWeekLogged then 100 else 0) 100 ∧
      bal.percentComplete ≤ 100 := by
  intro bal hbal
  simp only [calculateProjectBalances] at hbal
  rw [mem_jsSort] at hbal
  rcases List.mem_map.1 hbal with ⟨proj, hproj, rfl⟩
  exact ⟨rfl, min_le_right _ _⟩

/-- Witness for C7 at the concrete fixture balance of `exState`. -/
theorem claimC7_witness :
    exBalance ∈ calculateProjectBalances exState ∧
    (exBalance.percentComplete =
      min (if 0 < exBalance.effectiveAvailable
          then jsRound (exBalance.currentWeekLogged / exBalance.effectiveAvailable * 100)
          else if 0 < exBalance.currentWeekLogged then 100 else 0) 100 ∧
      exBalance.percentComplete ≤ 100) :=
  ⟨by decide!, claimC7 exState exBalance (by decide!)⟩

/-- C8: `addTimeBlock` returns `none` exactly when the slot is occupied in
the current week, in which case the state is untouched; otherwise it returns
a fresh-identity block carrying the requested fields and appends exactly that
block to the current week. -/
theorem claimC8 (pid : Nat) (day : DayOfWeek) (slot : Int) (s : AppState) :
    ((addTimeBlock pid day slot s).1 = none ↔
      ∃ blk ∈ (getCurrentWeekData s).blocks, blk.day = day ∧ blk.slotIndex = slot) ∧
    ((addTimeBlock pid day slot s).1 = none → (addTimeBlock pid day slot s).2 = s) ∧
    (∀ blk, (addTimeBlock pid day slot s).1 = some blk →
      blk.projectId = pid ∧ blk.day = day ∧ blk.slotIndex = slot ∧ blk.id = s.nextId ∧
      (getCurrentWeekData (addTimeBlock pid day slot s).2).blocks =
        (getCurrentWeekData s).blocks ++ [blk]) := by
  simp only [addTimeBlock, generateId]
  cases hf : (getCurrentWeekData s).blocks.find?
      (fun blk => decide (blk.day = day ∧ blk.slotIndex = slot)) with
  | some found =>
    refine ⟨?_, ?_, ?_⟩
    · constructor
      · intro _
        have hp := List.find?_some hf
        simp only [decide_eq_true_eq] at hp
        exact ⟨found, List.mem_of_find?_eq_some hf, hp.1, hp.2⟩
      · intro _
        rfl
    · intro _
      rfl
    · intro blk hblk
      simp at hblk
  | none =>
    refine ⟨?_, ?_, ?_⟩
    · constructor
      · intro hcon
        simp at hcon
      · rintro ⟨blk, hmem, hday, hslot⟩
        have hnone := List.find?_eq_none.1 hf blk hmem
        simp only [decide_eq_true_eq] at hnone
        exact absurd ⟨hday, hslot⟩ hnone
    · intro hcon
      simp at hcon
    · intro blk hblk
      simp only [Option.some.injEq] at hblk
      subst hblk
      refine ⟨rfl, rfl, rfl, rfl, ?_⟩
      rw [getCurrentWeekData_updateWeekInState]
      simpa using getCurrentWeekData_weekKey s

/-- Witness for C8: adding a block at the free Monday slot 0 of the fixture
state appends exactly one fresh block there. -/
theorem claimC8_witness :
    ((addTimeBlock 7 DayOfWeek.Monday 0 exState).1 =
      some { id := 1000, projectId := 7, day := DayOfWeek.Monday, slotIndex := 0 }) ∧
    ((getCurrentWeekData (addTimeBlock 7 DayOfWeek.Monday 0 exState).2).blocks =
      (getCurrentWeekData exState).blocks ++
        [{ id := 1000, projectId := 7, day := DayOfWeek.Monday, slotIndex := 0 }]) :=
  ⟨by decide!,
   ((claimC8 7 DayOfWeek.Monday 0 exState).2.2
     { id := 1000, projectId := 7, day := DayOfWeek.Monday, slotIndex := 0 }
     (by decide!)).2.2.2.2⟩

/-- C6: when every project referenced by the current week's blocks exists
(and the freshly minted template identity is not already taken, which the
identity generator guarantees), saving the week as a template, clearing the
week, and applying the saved template reproduces the original week's
`(projectId, day, slotIndex)` triples — in fact as an equal list, hence as an
equal set. -/
theorem claimC6 (s : AppState) (name : String)
    (h1 : ∀ blk ∈ (getCurrentWeekData s).blocks,
      ∃ p ∈ s.appData.projects, p.id = blk.projectId)
    (h2 : ∀ t ∈ s.appData.templates, t.id ≠ s.nextId) :
    (getCurrentWeekData
        (applyTemplate (saveCurrentWeekAsTemplate name s).1.id
          (clearCurrentWeek (saveCurrentWeekAsTemplate name s).2))).blocks.map blockTriple =
      (getCurrentWeekData s).blocks.map blockTriple := by
  have e1 : (saveCurrentWeekAsTemplate name s).1.id = s.nextId := rfl
  have e2 : (clearCurrentWeek (saveCurrentWeekAsTemplate name s).2).appData.templates =
      s.appData.templates ++ [(saveCurrentWeekAsTemplate name s).1] := rfl
  have e3 : (saveCurrentWeekAsTemplate name s).1.blocks =
      (getCurrentWeekData s).blocks.map
        (fun blk => ({ projectId := blk.projectId, day := blk.day, slotIndex := blk.slotIndex } : TemplateBlock)) := rfl
  have e4 : (clearCurrentWeek (saveCurrentWeekAsTemplate name s).2).appData.projects =
      s.appData.projects := rfl
  have hfind : (clearCurrentWeek (saveCurrentWeekAsTemplate name s).2).appData.templates.find?
      (fun t => decide (t.id = (saveCurrentWeekAsTemplate name s).1.id)) =
      some (saveCurrentWeekAsTemplate name s).1 := by
    rw [e2, find?_append_singleton]
    · rw [if_pos (by simp)]
    · intro y hy
      simp only [decide_eq_true_eq]
      rw [e1]
      exact h2 y hy
  rw [applyTemplate_currentBlocks _ _ _ hfind]
  rw [buildTemplateBlocks_map _ blockTriple tmplTriple (fun tb n => rfl)]
  have hfilter : (saveCurrentWeekAsTemplate name s).1.blocks.filter
      (fun tb => (clearCurrentWeek (saveCurrentWeekAsTemplate name s).2).appData.projects.any
        (fun p => decide (p.id = tb.projectId))) =
      (saveCurrentWeekAsTemplate name s).1.blocks := by
    rw [List.filter_eq_self]
    intro tb htb
    rw [e3] at htb
    rcases List.mem_map.1 htb with ⟨blk, hblk, rfl⟩
    rcases h1 blk hblk with ⟨p, hp, hpid⟩
    rw [e4, List.any_eq_true]
    exact ⟨p, hp, by simpa using hpid⟩
  rw [hfilter, e3, List.map_map]
  rfl

/-- Witness for C6 at a fixture with two blocks of the existing project 7 and
no templates yet. -/
theorem claimC6_witness :
    (∀ blk ∈ (getCurrentWeekData ex6State).blocks,
      ∃ p ∈ ex6State.appData.projects, p.id = blk.projectId) ∧
    ((getCurrentWeekData
        (applyTemplate (saveCurrentWeekAsTemplate "w" ex6State).1.id
          (clearCurrentWeek (saveCurrentWeekAsTemplate "w" ex6State).2))).blocks.map blockTriple =
      (getCurrentWeekData ex6State).blocks.map blockTriple) :=
  ⟨by decide!, claimC6 ex6State "w" (by decide!) (by decide!)⟩

end TimeManager
